import Mathlib

/-! cf-proxy: the stack tracker of `pkg/stack/manager.go`

A shallow embedding of the request classifier, the stack registry, the status
state machine, the skip rewrite and the duration formatter, followed by the
properties proved about them.

Modelling conventions.

* A Go `string` / `[]byte` is a `List Char`.  Every delimiter and keyword the
  program tests (`&`, `=`, `StackName`, `<StackStatus>`, a newline, ...) is
  ASCII, so on UTF-8 text splitting and searching by character agrees with
  Go's byte-wise `strings.Split`, `strings.Contains` and `==`.
* A `*stack` held by the registry is the index of the stack in
  `Manager.stacks`; stacks are never removed, so the index is a stable address.
* A Go panic is the `panic` constructor of `Outcome`.
* `time.Time` is an integer count of nanoseconds since Go's zero `time.Time`,
  so the zero value of an unset field is `0`; `time.Now()` is an argument.
* Slack traffic (`Broadcast`, `handleMessages`), logging and HTTP headers are
  not part of the tracked state and are left out.
-/

namespace CfProxy

/-! ## Strings -/

/-- Go `string` (also `[]byte`). -/
abbrev Str := List Char

/-- Go `strings.Split(s, sep)` for a separator of one character: the pieces of
`s` between the occurrences of `sep`; always at least one piece. -/
def split (sep : Char) : Str → List Str
  | [] => [[]]
  | c :: cs =>
    if c = sep then [] :: split sep cs
    else
      match split sep cs with
      | [] => [[c]]
      | seg :: segs => (c :: seg) :: segs

/-- Go `strings.Contains(s, sub)`. -/
def contains : Str → Str → Bool
  | [], sub => sub.isPrefixOf []
  | c :: cs, sub => sub.isPrefixOf (c :: cs) || contains cs sub

/-! ## Outcomes -/

/-- The run-time panics the tracker can raise. -/
inductive Panic where
  /-- `split[1]` on a one-element slice in `stackFromPayload`. -/
  | indexOutOfRange
  /-- A write through the nil `*stack` returned by `getStack`. -/
  | nilDereference
  /-- `panic(err)` after a failed `xml.Unmarshal`. -/
  | unmarshalError
  deriving DecidableEq, Repr

/-- Result of a call that may panic. -/
inductive Outcome (α : Type) where
  | ok : α → Outcome α
  | panic : Panic → Outcome α
  deriving DecidableEq, Repr

/-! ## Data model -/

/-- The constants `working`, `skipped`, `done`, `failed` of type `status`. -/
inductive Status where
  | working
  | skipped
  | done
  | failed
  deriving DecidableEq, Repr

/-- Go `time.Time`, in nanoseconds since the zero `time.Time`. -/
abbrev Time := Int

/-- Go `time.Duration`: a signed 64-bit count of nanoseconds. -/
abbrev Duration := Int

/-- The struct `stack`. -/
structure Stack where
  id : Nat
  name : Str
  create : Bool
  start : Time
  end_ : Time
  status : Status
  deriving DecidableEq, Repr

/-- The struct `Manager`, reduced to the registry `stacks` (a reserved word here, hence `stacks_`). -/
structure Manager where
  stacks_ : List Stack
  deriving DecidableEq, Repr

/-- The registry of `NewManager`: `make([]*stack, 0)`. -/
def NewManager : Manager := ⟨[]⟩

/-! ## Registry -/

/-- `Manager.addStack`: `stack.id = len(s.stacks)`, then append. -/
def Manager.addStack (m : Manager) (_name : Str) (stack : Stack) : Manager :=
  { m with stacks_ := m.stacks_ ++ [{ stack with id := m.stacks_.length }] }

/-- The scan of `Manager.getStack` over a slice: the index of the first stack
whose name is `name`. -/
def firstNamed (name : Str) : List Stack → Option Nat
  | [] => none
  | s :: ss => if s.name = name then some 0 else (firstNamed name ss).map (· + 1)

/-- `Manager.getStack`: the first stack named `name`, `none` for Go's `nil`. -/
def Manager.getStack (m : Manager) (name : Str) : Option Nat :=
  firstNamed name m.stacks_

/-- Assignment `p.status = st` through the pointer `i`. -/
def Manager.setStatus (m : Manager) (i : Nat) (st : Status) : Manager :=
  { m with stacks_ := m.stacks_.modify (fun s => { s with status := st }) i }

/-- `Manager.Skip`: `s := m.getStack(name); s.status = skipped`, with no nil
check between the two statements. -/
def Manager.Skip (m : Manager) (name : Str) : Outcome Manager :=
  match m.getStack name with
  | none => .panic .nilDereference
  | some i => .ok (m.setStatus i .skipped)

/-! ## Request classifier -/

/-- The body of the loop of `stackFromPayload` for one pair. -/
def stackFromPayload.step (s : Stack) (pair : Str) : Outcome Stack :=
  match split '=' pair with
  | [] => .panic .indexOutOfRange
  | key :: vals =>
    if key = "StackName".toList then
      match vals with
      | [] => .panic .indexOutOfRange
      | v :: _ => .ok { s with name := v }
    else if key = "ChangeSetType".toList then
      match vals with
      | [] => .panic .indexOutOfRange
      | v :: _ => .ok { s with create := decide (v = "CREATE".toList) }
    else .ok s

/-- The loop `for _, pair := range pairs` of `stackFromPayload`. -/
def stackFromPayload.loop : List Str → Stack → Outcome Stack
  | [], s => .ok s
  | pair :: pairs, s =>
    match stackFromPayload.step s pair with
    | .ok s' => stackFromPayload.loop pairs s'
    | .panic e => .panic e

/-- `stackFromPayload`; `now` is the value of `time.Now()`. -/
def stackFromPayload (now : Time) (payload : Str) : Outcome Stack :=
  stackFromPayload.loop (split '&' payload)
    { id := 0, name := [], create := false, start := now, end_ := 0, status := .working }

/-! ## Response status extractor -/

/-- `stack.updateFromDescribeResponse`.  `unmarshal body` stands for
`xml.Unmarshal(body, &reply)` followed by the read of
`reply.DescribeStacksResponse.Stacks.Member.StackStatus`: `none` when the
library reports an error, the extracted status text otherwise. -/
def Stack.updateFromDescribeResponse (unmarshal : Str → Option Str) (s : Stack)
    (body : Str) : Outcome Stack :=
  match unmarshal body with
  | none => .panic .unmarshalError
  | some status =>
    if status = "CREATE_COMPLETE".toList ∨ status = "DELETE_COMPLETE".toList then
      .ok { s with status := .done }
    else if contains status "FAILED".toList || contains status "ROLLBACK".toList then
      .ok { s with status := .failed }
    else .ok s

/-! ## Skip rewrite -/

/-- The literal `<StackStatus>` that opens the pattern of `shortCircuit`. -/
def openTag : Str := "<StackStatus>".toList

/-- The literal `</StackStatus>` that closes the pattern of `shortCircuit`. -/
def closeTag : Str := "</StackStatus>".toList

/-- The tail `.*</StackStatus>` of the pattern, matched at the head of the
input with Go's leftmost-first rule: the greedy `.*` first tries to take one
more character (`.` is any character but a newline) and only when that fails
is the closing literal tried at the current position.  The result is the length
of the match. -/
def matchTail : Str → Option Nat
  | [] => none
  | c :: cs =>
    match (if c = '\n' then none else matchTail cs) with
    | some n => some (n + 1)
    | none => if closeTag.isPrefixOf (c :: cs) then some closeTag.length else none

/-- The pattern `<StackStatus>.*</StackStatus>` matched at the head of the
input: the length of the match. -/
def matchHere (s : Str) : Option Nat :=
  if openTag.isPrefixOf s then
    (matchTail (s.drop openTag.length)).map (· + openTag.length)
  else none

/-- Go `re.ReplaceAll(body, repl)` for the pattern of `shortCircuit` and a
replacement without `$`: scanning from the left, every match is replaced and
the scan resumes behind it.  `skip` counts the characters of the match in
progress that are still to be dropped. -/
def replaceAll (repl : Str) : Nat → Str → Str
  | _, [] => []
  | skip + 1, _ :: cs => replaceAll repl skip cs
  | 0, c :: cs =>
    match matchHere (c :: cs) with
    | some n => repl ++ replaceAll repl (n - 1) cs
    | none => c :: replaceAll repl 0 cs

/-- The variable `injected` of `shortCircuit`. -/
def injected (s : Stack) : Str :=
  if s.create then "<StackStatus>CREATE_COMPLETE</StackStatus>".toList
  else "<StackStatus>UPDATE_COMPLETE</StackStatus>".toList

/-- `stack.shortCircuit`. -/
def Stack.shortCircuit (s : Stack) (body : Str) : Str :=
  replaceAll (injected s) 0 body

/-! ## Manager orchestration -/

/-- What `http.DefaultTransport.RoundTrip(req)` gives back. -/
inductive Upstream where
  /-- A transport error with its message. -/
  | transportError (msg : Str)
  /-- A reply with its status code and body. -/
  | reply (statusCode : Nat) (body : Str)
  deriving DecidableEq, Repr

/-- What `HandleHTTP` writes to the client. -/
structure Response where
  statusCode : Nat
  body : Str
  deriving DecidableEq, Repr

/-- The local variable `s` of `HandleHTTP`: the stack just parsed and not in
the registry, a stack of the registry, or `nil`. -/
inductive StackRef where
  | unregistered (s : Stack)
  | registered (i : Nat)
  | nil
  deriving DecidableEq, Repr

/-- `Manager.HandleHTTP` for a request body `payload` and the outcome `up` of the
round trip to the backend.  The result is the registry after the request and
what the handler did: the response written to the client, or a panic.  A panic
of a handler is recovered by `net/http`, so what the handler wrote to the registry
before it stays. -/
def Manager.HandleHTTP (unmarshal : Str → Option Str) (now : Time) (m : Manager)
    (payload : Str) (up : Upstream) : Manager × Outcome Response :=
  match stackFromPayload now payload with
  | .panic e => (m, .panic e)
  | .ok s0 =>
    let isCreate := contains payload "Action=CreateChangeSet&".toList
    let isDescribe := contains payload "Action=DescribeStacks&".toList
    let m1 := if isCreate then m.addStack payload s0 else m
    let s : StackRef :=
      if isCreate then .registered m.stacks_.length
      else if isDescribe then
        match m.getStack s0.name with
        | some i => .registered i
        | none => .nil
      else .unregistered s0
    match up with
    | .transportError msg => (m1, .ok ⟨503, msg ++ "\n".toList⟩)
    | .reply code reply =>
      match s, isDescribe with
      | .registered i, true =>
        match m1.stacks_[i]? with
        | none => (m1, .panic .nilDereference)
        | some st =>
          if st.status = .skipped then (m1, .ok ⟨code, st.shortCircuit reply⟩)
          else
            match st.updateFromDescribeResponse unmarshal reply with
            | .panic e => (m1, .panic e)
            | .ok st' => ({ m1 with stacks_ := m1.stacks_.set i st' }, .ok ⟨code, reply⟩)
      | _, _ => (m1, .ok ⟨code, reply⟩)

/-! ## Duration formatting -/

/-- The fraction `n / d` rounded to the nearest integer, ties to the even one. -/
def roundHalfEven (n d : Nat) : Nat :=
  let q := n / d
  let r := n % d
  if 2 * r < d then q
  else if d < 2 * r then q + 1
  else if q % 2 = 0 then q else q + 1

/-- The binary64 scale of the fraction `n / d`: counting up from `s`, the first
scale at which `(n / d) * 2 ^ s` reaches `2 ^ 52`, capped after `fuel` steps
(the subnormal range). -/
def f64Scale (n d : Nat) : Nat → Nat → Nat
  | 0, s => s
  | fuel + 1, s => if n * 2 ^ s < 2 ^ 52 * d then f64Scale n d fuel (s + 1) else s

/-- A finite `float64` of magnitude below `2 ^ 53`: the number
`± m / 2 ^ s`. -/
structure F64 where
  neg : Bool
  m : Nat
  s : Nat
  deriving DecidableEq, Repr

/-- IEEE-754 round-to-nearest-even of the exact fraction `± n / d`, for
`n / d < 2 ^ 53`: a significand of 53 bits, least exponent `-1074`. -/
def roundF64 (neg : Bool) (n d : Nat) : F64 :=
  if n = 0 then ⟨neg, 0, 0⟩
  else
    let s := f64Scale n d 1074 0
    ⟨neg, roundHalfEven (n * 2 ^ s) d, s⟩

/-- Go conversion `int(x)` of a `float64`: truncation toward zero. -/
def F64.toInt (x : F64) : Int :=
  if x.neg then -((x.m / 2 ^ x.s : Nat) : Int) else ((x.m / 2 ^ x.s : Nat) : Int)

/-- Go `time.Duration.Seconds`:
`sec := d / Second; nsec := d % Second; return float64(sec) + float64(nsec)/1e9`.
Both integers convert exactly; the quotient and the sum are each rounded. -/
def Duration.Seconds (d : Duration) : F64 :=
  let sec := d.natAbs / 10 ^ 9
  let nsec := d.natAbs % 10 ^ 9
  let frac := roundF64 (decide (d < 0)) nsec (10 ^ 9)
  roundF64 (decide (d < 0)) (sec * 2 ^ frac.s + frac.m) (2 ^ frac.s)

/-- The decimal digits of a natural number. -/
def decimal (n : Nat) : Str := (Nat.repr n).toList

/-- Go `fmt.Sprintf("%02d", n)`: zero padding to width two, the sign counted in
the width. -/
def fmt02d (n : Int) : Str :=
  if n < 0 then '-' :: decimal n.natAbs
  else if n < 10 then '0' :: decimal n.natAbs
  else decimal n.natAbs

/-- `formatDuration`; Go's `/` and `%` on `int` truncate toward zero. -/
def formatDuration (d : Duration) : Str :=
  let seconds := (Duration.Seconds d).toInt
  fmt02d (seconds.tdiv 60) ++ ':' :: fmt02d (seconds.tmod 60)

/-- Go `minDuration`. -/
def minDuration : Duration := -(2 ^ 63)

/-- Go `maxDuration`. -/
def maxDuration : Duration := 2 ^ 63 - 1

/-- Go `t.Sub(u)` on wall-clock readings: the difference, saturated to the range
of `Duration`. -/
def Time.Sub (t u : Time) : Duration :=
  if t - u < minDuration then minDuration
  else if maxDuration < t - u then maxDuration
  else t - u

/-- `stack.statusString`; `now` is the clock read by `time.Since`. -/
def Stack.statusString (now : Time) (s : Stack) : Str :=
  let status : Str :=
    match s.status with
    | .working => " deploying (".toList ++ formatDuration (Time.Sub now s.start) ++ ")".toList
    | .skipped => " skipped".toList
    | .done =>
      " succeeded (took ".toList ++ formatDuration (Time.Sub s.end_ s.start) ++ ")".toList
    | .failed => " FAILED".toList
  s.name ++ status

/-! ## Runs of the tracker -/

/-- One operation on the registry: a registration, a skip command, a describe
reply fed to the stack at an index, or a whole proxied request (after which the
process goes on, whether the handler panicked or not). -/
inductive Op where
  | add (name : Str) (s : Stack)
  | skip (name : Str)
  | update (i : Nat) (body : Str)
  | http (now : Time) (payload : Str) (up : Upstream)

/-- The registry after one operation. -/
def Manager.apply (unmarshal : Str → Option Str) (m : Manager) : Op → Outcome Manager
  | .add name s => .ok (m.addStack name s)
  | .skip name => m.Skip name
  | .update i body =>
    match m.stacks_[i]? with
    | none => .panic .nilDereference
    | some st =>
      match st.updateFromDescribeResponse unmarshal body with
      | .panic e => .panic e
      | .ok st' => .ok { m with stacks_ := m.stacks_.set i st' }
  | .http now payload up => .ok (m.HandleHTTP unmarshal now payload up).1

/-- The registry after a sequence of operations. -/
def Manager.run (unmarshal : Str → Option Str) : Manager → List Op → Outcome Manager
  | m, [] => .ok m
  | m, op :: ops =>
    match m.apply unmarshal op with
    | .panic e => .panic e
    | .ok m' => Manager.run unmarshal m' ops

/-- The ids of the registry are `0, 1, ..., N - 1` in insertion order. -/
def Manager.IdsInOrder (m : Manager) : Prop :=
  m.stacks_.map Stack.id = List.range m.stacks_.length

/-! ## Classifier, in the words of the specification -/

/-- The key of a pair: the text before its first `=`. -/
def pairKey (pair : Str) : Str := pair.takeWhile (· ≠ '=')

/-- The value of a pair: the text between its first and its second `=` (up to
the end when there is no second one). -/
def pairValue (pair : Str) : Str := ((pair.dropWhile (· ≠ '=')).drop 1).takeWhile (· ≠ '=')

/-- The last of the pairs whose key is `key`. -/
def lastPair (key : Str) (pairs : List Str) : Option Str :=
  pairs.reverse.find? (fun pair => pairKey pair = key)

/-- A pair that is exactly `StackName` or exactly `ChangeSetType`. -/
def BareKey (pair : Str) : Prop :=
  pair = "StackName".toList ∨ pair = "ChangeSetType".toList

instance (pair : Str) : Decidable (BareKey pair) := by
  unfold BareKey; infer_instance

/-- The stack name the specification reads off a payload: the value of the last
pair whose key is `StackName`, the empty string when there is none. -/
def specName (pairs : List Str) : Str :=
  match lastPair "StackName".toList pairs with
  | none => []
  | some pair => pairValue pair

/-- The create flag as the classifier computes it: the value of the last pair
whose key is `ChangeSetType` is `CREATE`; false when there is no such pair. -/
def specCreate (pairs : List Str) : Bool :=
  match lastPair "ChangeSetType".toList pairs with
  | none => false
  | some pair => decide (pairValue pair = "CREATE".toList)

/-- What one pair that is not a bare key does to the stack under construction:
the effect of the loop body of `stackFromPayload`, in terms of key and value. -/
def stepOk (s : Stack) (pair : Str) : Stack :=
  if pairKey pair = "StackName".toList then { s with name := pairValue pair }
  else if pairKey pair = "ChangeSetType".toList then
    { s with create := decide (pairValue pair = "CREATE".toList) }
  else s

/-! ## Duration format, in the words of the specification -/

/-- A natural number in decimal, zero-padded to at least two digits. -/
def zeroPad2 (n : Nat) : Str := if n < 10 then '0' :: decimal n else decimal n

/-! ## String lemmas -/

theorem contains_iff_infix (s sub : Str) : contains s sub = true ↔ sub <:+: s := by
  induction s with
  | nil => simp [contains]
  | cons c cs ih =>
    rw [contains, Bool.or_eq_true, ih, List.infix_cons_iff]
    simp

theorem split_cons_tail (c : Char) (s : Str) :
    split c s = s.takeWhile (· ≠ c) ::
      (match s.dropWhile (· ≠ c) with
        | [] => []
        | _ :: rest => split c rest) := by
  induction s with
  | nil => rfl
  | cons a s ih =>
    by_cases hac : a = c
    · simp [split, hac, List.takeWhile, List.dropWhile]
    · rw [split, if_neg hac, ih]
      simp [List.takeWhile, List.dropWhile, hac]

/-! ## Classifier lemmas -/

theorem step_eq (s : Stack) (pair : Str) :
    stackFromPayload.step s pair =
      if BareKey pair then .panic .indexOutOfRange else .ok (stepOk s pair) := by
  unfold stackFromPayload.step stepOk
  rw [split_cons_tail]
  have hkey : pairKey pair = pair.takeWhile (· ≠ '=') := rfl
  cases hd : pair.dropWhile (· ≠ '=') with
  | nil =>
    have hp : pair.takeWhile (· ≠ '=') = pair := by
      have := List.takeWhile_append_dropWhile (· ≠ '=') pair
      rw [hd, List.append_nil] at this
      exact this
    simp only [hkey, hp]
    unfold BareKey
    by_cases h1 : pair = "StackName".toList
    · rw [if_pos h1, if_pos (Or.inl h1)]
    · by_cases h2 : pair = "ChangeSetType".toList
      · rw [if_neg h1, if_pos h2, if_pos (Or.inr h2)]
      · rw [if_neg h1, if_neg h2, if_neg (not_or.2 ⟨h1, h2⟩), if_neg h1, if_neg h2]
  | cons e rest =>
    have hnb : ¬BareKey pair := by
      rintro (h | h)
      · have h0 : ("StackName".toList).dropWhile (· ≠ '=') = [] := by decide
        rw [h, h0] at hd
        cases hd
      · have h0 : ("ChangeSetType".toList).dropWhile (· ≠ '=') = [] := by decide
        rw [h, h0] at hd
        cases hd
    have hv : pairValue pair = rest.takeWhile (· ≠ '=') := by
      unfold pairValue
      rw [hd]
      rfl
    rw [if_neg hnb]
    simp only [hkey, hv]
    rw [split_cons_tail '=' rest]
    split_ifs <;> rfl

theorem loop_panic (pairs : List Str) (s : Stack) (h : ∃ pair ∈ pairs, BareKey pair) :
    stackFromPayload.loop pairs s = .panic .indexOutOfRange := by
  induction pairs generalizing s with
  | nil => simp at h
  | cons p ps ih =>
    rw [stackFromPayload.loop, step_eq]
    by_cases hp : BareKey p
    · simp [hp]
    · simp only [hp, if_false]
      apply ih
      obtain ⟨q, hq, hb⟩ := h
      rcases List.mem_cons.1 hq with rfl | hq
      · exact absurd hb hp
      · exact ⟨q, hq, hb⟩

theorem lastPair_cons (key p : Str) (ps : List Str) :
    lastPair key (p :: ps) =
      (lastPair key ps).or (if pairKey p = key then some p else none) := by
  simp [lastPair, List.find?_append]

theorem loop_ok (pairs : List Str) (s : Stack) (h : ∀ pair ∈ pairs, ¬BareKey pair) :
    stackFromPayload.loop pairs s = .ok
      { s with
        name := (match lastPair "StackName".toList pairs with
          | none => s.name
          | some pair => pairValue pair)
        create := (match lastPair "ChangeSetType".toList pairs with
          | none => s.create
          | some pair => decide (pairValue pair = "CREATE".toList)) } := by
  induction pairs generalizing s with
  | nil => rfl
  | cons p ps ih =>
    have hp : ¬BareKey p := h p (List.mem_cons_self _ _)
    rw [stackFromPayload.loop, step_eq, if_neg hp]
    simp only
    rw [ih _ (fun q hq => h q (List.mem_cons_of_mem _ hq)), lastPair_cons, lastPair_cons]
    have hne : "StackName".toList ≠ "ChangeSetType".toList := by decide
    unfold stepOk
    generalize "StackName".toList = kn at hne ⊢
    generalize "ChangeSetType".toList = kc at hne ⊢
    generalize "CREATE".toList = vc
    by_cases h1 : pairKey p = kn
    · have h2 : ¬pairKey p = kc := fun h2 => hne (h1.symm.trans h2)
      cases lastPair kn ps <;> cases lastPair kc ps <;> simp [h1, h2, hne, Ne.symm hne]
    · by_cases h2 : pairKey p = kc
      · cases lastPair kn ps <;> cases lastPair kc ps <;> simp [h1, h2, hne, Ne.symm hne]
      · cases lastPair kn ps <;> cases lastPair kc ps <;> simp [h1, h2, hne, Ne.symm hne]

theorem stackFromPayload_of_no_bare (now : Time) (payload : Str)
    (h : ∀ pair ∈ split '&' payload, ¬BareKey pair) :
    stackFromPayload now payload = .ok
      ⟨0, specName (split '&' payload), specCreate (split '&' payload), now, 0, .working⟩ := by
  unfold stackFromPayload
  rw [loop_ok _ _ h]
  rfl

theorem lastPair_append_mid (key : Str) (front back : List Str) (x y : Str)
    (hx : pairKey x = key) (hy : pairKey y ≠ key) (hback : ∀ p ∈ back, pairKey p ≠ key) :
    lastPair key (front ++ [x, y] ++ back) = some x ∧
    lastPair key (front ++ [y, x] ++ back) = some x := by
  have hnone : back.reverse.find? (fun pair => decide (pairKey pair = key)) = none := by
    rw [List.find?_eq_none]
    intro p hp
    simpa using hback p (List.mem_reverse.1 hp)
  unfold lastPair
  constructor <;> simp [List.find?_append, hnone, List.find?_cons, hx, hy]

/-! ## Registry lemmas -/

theorem update_id (unmarshal : Str → Option Str) (s s' : Stack) (body : Str)
    (h : s.updateFromDescribeResponse unmarshal body = .ok s') : s'.id = s.id := by
  unfold Stack.updateFromDescribeResponse at h
  split at h
  · cases h
  · split_ifs at h <;> cases h <;> rfl

theorem map_id_set (l : List Stack) (i : Nat) (st st' : Stack)
    (hi : l[i]? = some st) (hid : st'.id = st.id) :
    (l.set i st').map Stack.id = l.map Stack.id := by
  induction l generalizing i with
  | nil => simp
  | cons a l ih =>
    cases i with
    | zero =>
      simp only [List.getElem?_cons_zero, Option.some.injEq] at hi
      subst hi
      simp [hid]
    | succ i =>
      simp only [List.getElem?_cons_succ] at hi
      simp [ih i hi]

theorem map_id_modify (l : List Stack) (i : Nat) (st : Status) :
    (l.modify (fun s => { s with status := st }) i).map Stack.id = l.map Stack.id := by
  induction l generalizing i with
  | nil => cases i <;> simp [List.modify]
  | cons a l ih =>
    cases i with
    | zero => simp [List.modify]
    | succ i => simpa [List.modify] using ih i

theorem idsInOrder_addStack (m : Manager) (name : Str) (s : Stack) (h : m.IdsInOrder) :
    (m.addStack name s).IdsInOrder := by
  unfold Manager.IdsInOrder at *
  simp [Manager.addStack, h, List.range_succ]

theorem idsInOrder_set (m : Manager) (i : Nat) (st st' : Stack) (h : m.IdsInOrder)
    (hi : m.stacks_[i]? = some st) (hid : st'.id = st.id) :
    Manager.IdsInOrder { m with stacks_ := m.stacks_.set i st' } := by
  unfold Manager.IdsInOrder at *
  simp only [List.length_set]
  rw [map_id_set _ _ _ _ hi hid, h]

theorem idsInOrder_Skip (m m' : Manager) (name : Str) (h : m.IdsInOrder)
    (hs : m.Skip name = .ok m') : m'.IdsInOrder := by
  unfold Manager.Skip at hs
  split at hs
  · cases hs
  · cases hs
    unfold Manager.IdsInOrder at *
    simp only [Manager.setStatus, List.length_modify]
    rw [map_id_modify, h]

/-- The registry after `HandleHTTP` is the registry after the registration step
(the registry before the request, or that registry with the parsed stack added),
possibly with one stack that was not skipped replaced by its update from the
reply. -/
theorem HandleHTTP_cases (unmarshal : Str → Option Str) (now : Time) (m : Manager)
    (payload : Str) (up : Upstream) :
    ∃ m1, (m1 = m ∨ ∃ s0, stackFromPayload now payload = .ok s0 ∧
        m1 = m.addStack payload s0) ∧
      ((m.HandleHTTP unmarshal now payload up).1 = m1 ∨
        ∃ i st st' reply, m1.stacks_[i]? = some st ∧ st.status ≠ .skipped ∧
          st.updateFromDescribeResponse unmarshal reply = .ok st' ∧
          (m.HandleHTTP unmarshal now payload up).1 =
            { m1 with stacks_ := m1.stacks_.set i st' }) := by
  unfold Manager.HandleHTTP
  split
  · exact ⟨m, Or.inl rfl, Or.inl rfl⟩
  · rename_i s0 hs0
    refine ⟨if contains payload "Action=CreateChangeSet&".toList = true
      then m.addStack payload s0 else m, ?_, ?_⟩
    · split_ifs
      · exact Or.inr ⟨s0, hs0, rfl⟩
      · exact Or.inl rfl
    · simp only
      generalize (if contains payload "Action=CreateChangeSet&".toList = true
        then m.addStack payload s0 else m) = m1
      generalize (if contains payload "Action=CreateChangeSet&".toList = true
        then StackRef.registered m.stacks_.length else _) = sref
      split
      · exact Or.inl rfl
      · split
        · split
          · exact Or.inl rfl
          · rename_i st hst
            split_ifs with hsk
            · exact Or.inl rfl
            · split
              · exact Or.inl rfl
              · rename_i st' hst'
                exact Or.inr ⟨_, st, st', _, hst, hsk, hst', rfl⟩
        · exact Or.inl rfl

theorem idsInOrder_HandleHTTP (unmarshal : Str → Option Str) (now : Time) (m : Manager)
    (payload : Str) (up : Upstream) (h : m.IdsInOrder) :
    (m.HandleHTTP unmarshal now payload up).1.IdsInOrder := by
  obtain ⟨m1, hm1, hcase⟩ := HandleHTTP_cases unmarshal now m payload up
  have h1 : m1.IdsInOrder := by
    rcases hm1 with rfl | ⟨s0, -, rfl⟩
    · exact h
    · exact idsInOrder_addStack _ _ _ h
  rcases hcase with h2 | ⟨i, st, st', reply, hst, -, hst', h2⟩
  · rw [h2]; exact h1
  · rw [h2]; exact idsInOrder_set _ _ _ _ h1 hst (update_id _ _ _ _ hst')

theorem idsInOrder_apply (unmarshal : Str → Option Str) (m m' : Manager) (op : Op)
    (h : m.IdsInOrder) (hs : m.apply unmarshal op = .ok m') : m'.IdsInOrder := by
  cases op with
  | add name s => cases hs; exact idsInOrder_addStack _ _ _ h
  | skip name => exact idsInOrder_Skip _ _ _ h hs
  | update i body =>
    simp only [Manager.apply] at hs
    split at hs
    · cases hs
    · rename_i st hst
      split at hs
      · cases hs
      · rename_i st' hst'
        cases hs
        exact idsInOrder_set _ _ _ _ h hst (update_id _ _ _ _ hst')
  | http now payload up =>
    cases hs
    exact idsInOrder_HandleHTTP _ _ _ _ _ h

theorem idsInOrder_run (unmarshal : Str → Option Str) (ops : List Op) (m m' : Manager)
    (h : m.IdsInOrder) (hs : Manager.run unmarshal m ops = .ok m') : m'.IdsInOrder := by
  induction ops generalizing m with
  | nil => cases hs; exact h
  | cons op ops ih =>
    simp only [Manager.run] at hs
    split at hs
    · cases hs
    · rename_i m1 hm1
      exact ih m1 (idsInOrder_apply _ _ _ _ h hm1) hs

/-! ## Terminal states -/

theorem stackFromPayload_ok_eq (now : Time) (payload : Str) (s : Stack)
    (h : stackFromPayload now payload = .ok s) :
    s = ⟨0, specName (split '&' payload), specCreate (split '&' payload), now, 0, .working⟩ := by
  have hnb : ∀ pair ∈ split '&' payload, ¬BareKey pair := by
    intro pair hp hb
    unfold stackFromPayload at h
    rw [loop_panic _ _ ⟨pair, hp, hb⟩] at h
    cases h
  rw [stackFromPayload_of_no_bare now payload hnb] at h
  cases h
  rfl

theorem update_skipped (unmarshal : Str → Option Str) (s s' : Stack) (body : Str)
    (h : s.updateFromDescribeResponse unmarshal body = .ok s') (hs : s'.status = .skipped) :
    s.status = .skipped := by
  unfold Stack.updateFromDescribeResponse at h
  split at h
  · cases h
  · split_ifs at h <;> cases h
    · cases hs
    · cases hs
    · exact hs

theorem registered_get (m m1 : Manager) (payload : Str) (now : Time) (s : Stack) (k : Nat)
    (hm1 : m1 = m ∨ ∃ s0, stackFromPayload now payload = .ok s0 ∧ m1 = m.addStack payload s0)
    (hk : m.stacks_[k]? = some s) : m1.stacks_[k]? = some s := by
  rcases hm1 with rfl | ⟨s0, -, rfl⟩
  · exact hk
  · have hlt : k < m.stacks_.length := by
      by_contra hge
      rw [List.getElem?_eq_none (not_lt.1 hge)] at hk
      cases hk
    simp only [Manager.addStack]
    rw [List.getElem?_append_left hlt]
    exact hk

theorem registered_get_skipped (m m1 : Manager) (payload : Str) (now : Time) (t : Stack)
    (j : Nat)
    (hm1 : m1 = m ∨ ∃ s0, stackFromPayload now payload = .ok s0 ∧ m1 = m.addStack payload s0)
    (hj : m1.stacks_[j]? = some t) (ht : t.status = .skipped) : m.stacks_[j]? = some t := by
  rcases hm1 with rfl | ⟨s0, hs0, rfl⟩
  · exact hj
  · have h0 : s0.status = .working := by
      rw [stackFromPayload_ok_eq _ _ _ hs0]
    simp only [Manager.addStack] at hj
    rw [List.getElem?_append] at hj
    split_ifs at hj with hlt
    · exact hj
    · exfalso
      cases hidx : j - m.stacks_.length with
      | zero =>
        rw [hidx] at hj
        simp only [List.getElem?_cons_zero, Option.some.injEq] at hj
        rw [← hj] at ht
        simp only [h0] at ht
        cases ht
      | succ n =>
        rw [hidx] at hj
        simp at hj

/-! ## Skip rewrite lemmas -/

theorem prefix_of_not_mem {x : Char} {w p u : Str} (hx : x ∉ w) (h : w <+: p ++ x :: u) :
    w <+: p := by
  induction p generalizing w with
  | nil =>
    cases w with
    | nil => exact List.nil_prefix
    | cons c w =>
      simp only [List.nil_append, List.cons_prefix_cons] at h
      exact absurd (h.1 ▸ List.mem_cons_self c w) hx
  | cons a p ih =>
    cases w with
    | nil => exact List.nil_prefix
    | cons c w =>
      simp only [List.cons_append, List.cons_prefix_cons] at h ⊢
      exact ⟨h.1, ih (fun hm => hx (List.mem_cons_of_mem _ hm)) h.2⟩

theorem infix_of_not_mem {x : Char} {w a rest : Str} (hx : x ∉ a)
    (h : x :: w <:+: a ++ rest) : x :: w <:+: rest := by
  induction a with
  | nil => exact h
  | cons y a ih =>
    rw [List.cons_append, List.infix_cons_iff] at h
    rcases h with h | h
    · rw [List.cons_prefix_cons] at h
      exact absurd (h.1 ▸ List.mem_cons_self y a) hx
    · exact ih (fun hm => hx (List.mem_cons_of_mem _ hm)) h

theorem prefix_takeWhile {w s : Str} (hw : ∀ c ∈ w, (c ≠ '\n') = true) (h : w <+: s) :
    w <+: s.takeWhile (· ≠ '\n') := by
  obtain ⟨u, rfl⟩ := h
  have hw' : ∀ c ∈ w, (decide (c ≠ '\n')) = true := by
    intro c hc
    simpa using hw c hc
  rw [List.takeWhile_append_of_pos hw']
  exact List.prefix_append _ _

theorem closeTag_no_newline : ∀ c ∈ closeTag, (c ≠ '\n') = true := by decide

theorem matchTail_none (s : Str) (h : ¬closeTag <:+: s.takeWhile (· ≠ '\n')) :
    matchTail s = none := by
  induction s with
  | nil => rfl
  | cons c cs ih =>
    have hpre : closeTag.isPrefixOf (c :: cs) = false := by
      rw [Bool.eq_false_iff]
      intro hp
      have hp' : closeTag <+: c :: cs := List.isPrefixOf_iff_prefix.1 hp
      exact h (prefix_takeWhile closeTag_no_newline hp').isInfix
    unfold matchTail
    by_cases hc : c = '\n'
    · simp only [hc, if_true]
      rw [← hc, hpre]
      rfl
    · have hih : matchTail cs = none := by
        apply ih
        intro hin
        apply h
        have hd : decide (c ≠ '\n') = true := by simpa using hc
        rw [List.takeWhile_cons, if_pos hd]
        exact List.infix_cons hin
      simp only [hc, if_false, hih, hpre]
      rfl

theorem matchTail_close (st post : Str) (hst : '\n' ∉ st)
    (hpost : ¬closeTag <:+: post.takeWhile (· ≠ '\n')) :
    matchTail (st ++ (closeTag ++ post)) = some (st.length + closeTag.length) := by
  induction st with
  | nil =>
    have hct : closeTag = '<' :: "/StackStatus>".toList := rfl
    have hw : ∀ c ∈ "/StackStatus>".toList, decide (c ≠ '\n') = true := by decide
    have hnone : matchTail ("/StackStatus>".toList ++ post) = none := by
      apply matchTail_none
      rw [List.takeWhile_append_of_pos hw]
      intro hin
      rw [hct] at hin
      exact hpost (hct ▸ infix_of_not_mem (by decide) hin)
    have hpre : closeTag.isPrefixOf ('<' :: ("/StackStatus>".toList ++ post)) = true := by
      rw [List.isPrefixOf_iff_prefix]
      exact ⟨post, rfl⟩
    show matchTail ('<' :: ("/StackStatus>".toList ++ post)) = _
    unfold matchTail
    have hlt : ¬('<' = '\n') := by decide
    simp only [hlt, if_false, hnone, hpre, if_true]
    rfl
  | cons c st ih =>
    have hc : ¬c = '\n' := fun hc => hst (hc ▸ List.mem_cons_self c st)
    have hih := ih (fun hm => hst (List.mem_cons_of_mem _ hm))
    show matchTail (c :: (st ++ (closeTag ++ post))) = _
    unfold matchTail
    simp only [hc, if_false, hih, List.length_cons]
    congr 1

theorem matchHere_element (st post : Str) (hst : '\n' ∉ st)
    (hpost : ¬closeTag <:+: post.takeWhile (· ≠ '\n')) :
    matchHere (openTag ++ (st ++ (closeTag ++ post))) =
      some (st.length + closeTag.length + openTag.length) := by
  unfold matchHere
  have hpre : openTag.isPrefixOf (openTag ++ (st ++ (closeTag ++ post))) = true := by
    rw [List.isPrefixOf_iff_prefix]
    exact List.prefix_append _ _
  rw [if_pos hpre, List.drop_left, matchTail_close st post hst hpost]
  rfl

theorem replaceAll_skip (repl xs ys : Str) :
    replaceAll repl xs.length (xs ++ ys) = replaceAll repl 0 ys := by
  induction xs with
  | nil => rfl
  | cons x xs ih =>
    show replaceAll repl (xs.length + 1) (x :: (xs ++ ys)) = _
    rw [replaceAll]
    exact ih

theorem replaceAll_front (repl pre rest : Str) (h : ¬openTag <:+: pre)
    (hrest : rest = [] ∨ ∃ u, rest = '<' :: u) :
    replaceAll repl 0 (pre ++ rest) = pre ++ replaceAll repl 0 rest := by
  induction pre with
  | nil => rfl
  | cons c pre ih =>
    have hot : openTag = '<' :: "StackStatus>".toList := rfl
    have hno : matchHere (c :: (pre ++ rest)) = none := by
      unfold matchHere
      have hpre : ¬openTag.isPrefixOf (c :: (pre ++ rest)) = true := by
        intro hp
        rw [List.isPrefixOf_iff_prefix, hot, List.cons_prefix_cons] at hp
        have hw : "StackStatus>".toList <+: pre := by
          rcases hrest with hr | ⟨u, hr⟩
          · rw [hr, List.append_nil] at hp
            exact hp.2
          · rw [hr] at hp
            exact prefix_of_not_mem (by decide) hp.2
        apply h
        rw [hot, ← hp.1]
        exact (List.cons_prefix_cons.2 ⟨rfl, hw⟩).isInfix
      rw [if_neg hpre]
    show replaceAll repl 0 (c :: (pre ++ rest)) = c :: (pre ++ replaceAll repl 0 rest)
    rw [replaceAll, hno]
    simp only
    rw [ih (fun hin => h (List.infix_cons hin))]

theorem replaceAll_element (repl st post : Str) (hst : '\n' ∉ st)
    (hpost : ¬closeTag <:+: post.takeWhile (· ≠ '\n')) :
    replaceAll repl 0 (openTag ++ (st ++ (closeTag ++ post))) =
      repl ++ replaceAll repl 0 post := by
  have hm := matchHere_element st post hst hpost
  have hcons : openTag ++ (st ++ (closeTag ++ post)) =
      '<' :: (("StackStatus>".toList ++ (st ++ closeTag)) ++ post) := by
    simp only [List.append_assoc]
    rfl
  rw [hcons] at hm ⊢
  rw [replaceAll, hm]
  simp only
  have hlen : st.length + closeTag.length + openTag.length - 1 =
      ("StackStatus>".toList ++ (st ++ closeTag)).length := by
    simp only [List.length_append]
    have h1 : openTag.length = 13 := rfl
    have h2 : ("StackStatus>".toList).length = 12 := rfl
    omega
  rw [hlen, replaceAll_skip]

/-! ## Rounding lemmas -/

theorem roundHalfEven_ge (n d : Nat) : n / d ≤ roundHalfEven n d := by
  simp only [roundHalfEven]
  split_ifs <;> omega

theorem roundHalfEven_lt (n d k : Nat) (h : 2 * n < (2 * k + 1) * d) :
    roundHalfEven n d ≤ k := by
  have hd : 0 < d := by
    rcases Nat.eq_zero_or_pos d with h0 | h0
    · rw [h0] at h; simp at h
    · exact h0
  have hq := Nat.div_add_mod n d
  have hr := Nat.mod_lt n hd
  simp only [roundHalfEven]
  generalize n / d = q at hq ⊢
  generalize n % d = r at hq hr ⊢
  have hcase : q < k ∨ (q = k ∧ 2 * r < d) := by
    rcases Nat.lt_trichotomy q k with hlt | heq | hgt
    · exact Or.inl hlt
    · right
      refine ⟨heq, ?_⟩
      rw [heq] at hq
      nlinarith
    · exfalso
      have : d * (k + 1) ≤ d * q := Nat.mul_le_mul_left d hgt
      nlinarith
  rcases hcase with hlt | ⟨heq, hlt⟩
  · split_ifs <;> omega
  · rw [if_pos hlt]; omega

theorem f64Scale_ge (n d fuel s0 : Nat) : s0 ≤ f64Scale n d fuel s0 := by
  induction fuel generalizing s0 with
  | zero => exact le_refl _
  | succ fuel ih =>
    rw [f64Scale]
    split_ifs
    · exact le_trans (Nat.le_succ _) (ih (s0 + 1))
    · exact le_refl _

theorem f64Scale_exit (n d fuel s0 : Nat) :
    f64Scale n d fuel s0 = s0 + fuel ∨ 2 ^ 52 * d ≤ n * 2 ^ f64Scale n d fuel s0 := by
  induction fuel generalizing s0 with
  | zero => exact Or.inl rfl
  | succ fuel ih =>
    rw [f64Scale]
    split_ifs with hc
    · rcases ih (s0 + 1) with h | h
      · left; omega
      · exact Or.inr h
    · exact Or.inr (not_lt.1 hc)

theorem f64Scale_le (n d k fuel s0 : Nat) (h : ∀ s, s < k → n * 2 ^ s < 2 ^ 52 * d)
    (hk : k ≤ s0 + fuel) : k ≤ f64Scale n d fuel s0 := by
  induction fuel generalizing s0 with
  | zero => exact hk
  | succ fuel ih =>
    rw [f64Scale]
    by_cases hs : s0 < k
    · rw [if_pos (h s0 hs)]
      exact ih (s0 + 1) (by omega)
    · split_ifs
      · exact le_trans (by omega) (f64Scale_ge n d fuel (s0 + 1))
      · omega

theorem roundF64_trunc (neg : Bool) (N D sec : Nat) (hD : 0 < D) (hsec : sec < 2 ^ 24)
    (hlo : sec * D ≤ N) (hhi : N * 2 ^ 30 + D < (sec + 1) * 2 ^ 30 * D) :
    (roundF64 neg N D).m / 2 ^ (roundF64 neg N D).s = sec := by
  unfold roundF64
  by_cases hN : N = 0
  · rw [if_pos hN]
    rw [hN] at hlo
    have : sec = 0 := by
      rcases Nat.eq_zero_or_pos sec with h | h
      · exact h
      · exact absurd hlo (not_le.2 (Nat.mul_pos h hD))
    simp [this]
  · rw [if_neg hN]
    simp only
    generalize hs : f64Scale N D 1074 0 = s
    have hNlt : N < 2 ^ 24 * D := by
      have h1 : (sec + 1) * D ≤ 2 ^ 24 * D := Nat.mul_le_mul_right D hsec
      nlinarith
    have hs29 : 29 ≤ s := by
      rcases f64Scale_exit N D 1074 0 with h | h
      · rw [hs] at h; omega
      · rw [hs] at h
        have h2 : N * 2 ^ s < 2 ^ 24 * D * 2 ^ s :=
          Nat.mul_lt_mul_of_pos_right hNlt (Nat.two_pow_pos s)
        have h3 : 2 ^ 52 * D < 2 ^ (24 + s) * D := by
          rw [pow_add]
          calc 2 ^ 52 * D ≤ N * 2 ^ s := h
            _ < 2 ^ 24 * D * 2 ^ s := h2
            _ = 2 ^ 24 * 2 ^ s * D := by ring
        have h4 : 2 ^ 52 < 2 ^ (24 + s) := lt_of_mul_lt_mul_right h3 (Nat.zero_le D)
        have h5 : 52 < 24 + s := (Nat.pow_lt_pow_iff_right (by norm_num)).1 h4
        omega
    obtain ⟨e, rfl⟩ : ∃ e, s = 29 + e := ⟨s - 29, by omega⟩
    have hP : 1 ≤ 2 ^ e := Nat.one_le_two_pow
    rw [pow_add]
    generalize 2 ^ e = P at hP
    have hlo' : sec * (2 ^ 29 * P) ≤ roundHalfEven (N * (2 ^ 29 * P)) D := by
      refine le_trans ?_ (roundHalfEven_ge _ _)
      rw [Nat.le_div_iff_mul_le hD]
      calc sec * (2 ^ 29 * P) * D = sec * D * (2 ^ 29 * P) := by ring
        _ ≤ N * (2 ^ 29 * P) := Nat.mul_le_mul_right _ hlo
    have hhi' : roundHalfEven (N * (2 ^ 29 * P)) D < (sec + 1) * (2 ^ 29 * P) := by
      obtain ⟨k, hk⟩ : ∃ k, (sec + 1) * (2 ^ 29 * P) = k + 1 :=
        ⟨(sec + 1) * (2 ^ 29 * P) - 1, by
          have : 0 < (sec + 1) * (2 ^ 29 * P) := by positivity
          omega⟩
      rw [hk]
      refine Nat.lt_succ_of_le (roundHalfEven_lt _ _ _ ?_)
      have h1 : (N * 2 ^ 30 + D) * P < (sec + 1) * 2 ^ 30 * D * P :=
        Nat.mul_lt_mul_of_pos_right hhi (by omega)
      have h2 : D ≤ D * P := Nat.le_mul_of_pos_right D (by omega)
      have h3 : (sec + 1) * (2 ^ 29 * P) * D = (k + 1) * D := by rw [hk]
      nlinarith
    exact Nat.div_eq_of_lt_le hlo' hhi'

theorem roundF64_fraction (neg : Bool) (nsec : Nat) (h : nsec < 10 ^ 9) :
    (roundF64 neg nsec (10 ^ 9)).m * 2 ^ 30 + 2 ^ (roundF64 neg nsec (10 ^ 9)).s <
      2 ^ 30 * 2 ^ (roundF64 neg nsec (10 ^ 9)).s := by
  unfold roundF64
  by_cases hn : nsec = 0
  · rw [if_pos hn]
    norm_num
  · rw [if_neg hn]
    simp only
    generalize hs : f64Scale nsec (10 ^ 9) 1074 0 = s
    have hs53 : 53 ≤ s := by
      rw [← hs]
      apply f64Scale_le _ _ 53
      · intro u hu
        have h1 : (2 : Nat) ^ u ≤ 2 ^ 52 := Nat.pow_le_pow_right (by norm_num) (by omega)
        calc nsec * 2 ^ u ≤ nsec * 2 ^ 52 := Nat.mul_le_mul_left _ h1
          _ < 10 ^ 9 * 2 ^ 52 := Nat.mul_lt_mul_of_pos_right h (by norm_num)
          _ = 2 ^ 52 * 10 ^ 9 := by ring
      · omega
    obtain ⟨e, rfl⟩ : ∃ e, s = 30 + (23 + e) := ⟨s - 53, by omega⟩
    have hQ : 2 ^ 23 ≤ 2 ^ (23 + e) := Nat.pow_le_pow_right (by norm_num) (by omega)
    rw [pow_add 2 30 (23 + e)]
    generalize 2 ^ (23 + e) = Q at hQ
    obtain ⟨k, hk⟩ : ∃ k, (2 ^ 30 - 1) * Q = k + 1 :=
      ⟨(2 ^ 30 - 1) * Q - 1, by
        have : 0 < (2 ^ 30 - 1) * Q := Nat.mul_pos (by norm_num) (by omega)
        omega⟩
    have hm : roundHalfEven (nsec * (2 ^ 30 * Q)) (10 ^ 9) ≤ k := by
      apply roundHalfEven_lt
      have h1 : nsec * Q ≤ (10 ^ 9 - 1) * Q := Nat.mul_le_mul_right Q (by omega)
      norm_num at hk h1 hQ ⊢
      nlinarith
    norm_num at hk hQ hm ⊢
    nlinarith

theorem roundF64_neg (neg : Bool) (n d : Nat) : (roundF64 neg n d).neg = neg := by
  unfold roundF64
  split_ifs <;> rfl

theorem seconds_trunc (a : Nat) (h : a < 2 ^ 24 * 10 ^ 9) :
    (Duration.Seconds (a : Int)).toInt = ((a / 10 ^ 9 : Nat) : Int) := by
  have hneg : decide ((a : Int) < 0) = false := by simp
  unfold F64.toInt Duration.Seconds
  simp only [hneg, roundF64_neg, Int.natAbs_ofNat, Bool.false_eq_true, if_false]
  congr 1
  apply roundF64_trunc
  · exact Nat.two_pow_pos _
  · rw [Nat.div_lt_iff_lt_mul (by norm_num)]
    exact h
  · exact Nat.le_add_right _ _
  · have hf := roundF64_fraction false (a % 10 ^ 9) (Nat.mod_lt _ (by norm_num))
    generalize (roundF64 false (a % 10 ^ 9) (10 ^ 9)).m = m1 at hf ⊢
    generalize (2 : Nat) ^ (roundF64 false (a % 10 ^ 9) (10 ^ 9)).s = D at hf ⊢
    generalize a / 10 ^ 9 = sec
    nlinarith

theorem fmt02d_natCast (k : Nat) : fmt02d (k : Int) = zeroPad2 k := by
  unfold fmt02d zeroPad2
  have h1 : ¬((k : Int) < 0) := by omega
  rw [if_neg h1, Int.natAbs_ofNat]
  by_cases h2 : k < 10
  · rw [if_pos h2, if_pos (by omega)]
  · rw [if_neg h2, if_neg (by omega)]

/-! ## Claims -/

/-- C1. Starting from the empty registry, after any run of registrations, skip
commands, describe updates and proxied requests the ids of the registry are
`0, 1, ..., N - 1` in insertion order (so the k-th stack has id `k` and no id
occurs twice), and `addStack` appends its stack at the end with id equal to the
length before the call, leaving the earlier stacks as they were. -/
theorem registry_ids_in_order (unmarshal : Str → Option Str) (ops : List Op) (m : Manager)
    (h : Manager.run unmarshal NewManager ops = .ok m) :
    m.stacks_.map Stack.id = List.range m.stacks_.length ∧
    (∀ k (hk : k < m.stacks_.length), (m.stacks_.get ⟨k, hk⟩).id = k) ∧
    (m.stacks_.map Stack.id).Nodup ∧
    ∀ name s, (m.addStack name s).stacks_ =
      m.stacks_ ++ [{ s with id := m.stacks_.length }] := by
  have hin : m.IdsInOrder := idsInOrder_run unmarshal ops NewManager m rfl h
  refine ⟨hin, ?_, ?_, fun _ _ => rfl⟩
  · intro k hk
    have h2 : (m.stacks_.map Stack.id)[k]? = (List.range m.stacks_.length)[k]? := by
      rw [hin]
    simpa [List.getElem?_range hk, List.getElem?_eq_getElem hk] using h2
  · unfold Manager.IdsInOrder at hin
    rw [hin]
    exact List.nodup_range _

/-- Witness of C1: two registrations, a skip and a describe update. -/
theorem registry_ids_in_order_witness :
    Manager.run (fun b => some b) NewManager
        [.add [] ⟨7, "Foo".toList, true, 1, 0, .working⟩,
         .add [] ⟨7, "Bar".toList, false, 2, 0, .working⟩,
         .skip "Foo".toList,
         .update 1 "CREATE_COMPLETE".toList] =
      .ok ⟨[⟨0, "Foo".toList, true, 1, 0, .skipped⟩, ⟨1, "Bar".toList, false, 2, 0, .done⟩]⟩ ∧
    ([⟨0, "Foo".toList, true, 1, 0, .skipped⟩, ⟨1, "Bar".toList, false, 2, 0, .done⟩] :
      List Stack).map Stack.id = List.range 2 :=
  ⟨by decide,
   (registry_ids_in_order (fun b => some b)
      [.add [] ⟨7, "Foo".toList, true, 1, 0, .working⟩,
       .add [] ⟨7, "Bar".toList, false, 2, 0, .working⟩,
       .skip "Foo".toList,
       .update 1 "CREATE_COMPLETE".toList]
      ⟨[⟨0, "Foo".toList, true, 1, 0, .skipped⟩, ⟨1, "Bar".toList, false, 2, 0, .done⟩]⟩
      (by decide)).1⟩

/-- C4. Status transition table: when the describe reply unmarshals to the
status text `st`, `updateFromDescribeResponse` returns the stack with status
`done` if `st` is `CREATE_COMPLETE` or `DELETE_COMPLETE`, with status `failed` if
`st` has the substring `FAILED` or the substring `ROLLBACK`, and returns the
stack itself, every field untouched, for any other `st`; in the first two cases
only the status field changes.  So a working stack goes to `done` on
`CREATE_COMPLETE`, to `failed` on `UPDATE_ROLLBACK_FAILED`, and stays working on
`UPDATE_IN_PROGRESS`. -/
theorem transition_table (unmarshal : Str → Option Str) (s : Stack) (body st : Str)
    (h : unmarshal body = some st) :
    ((st = "CREATE_COMPLETE".toList ∨ st = "DELETE_COMPLETE".toList) →
      s.updateFromDescribeResponse unmarshal body = .ok { s with status := .done }) ∧
    (("FAILED".toList <:+: st ∨ "ROLLBACK".toList <:+: st) →
      s.updateFromDescribeResponse unmarshal body = .ok { s with status := .failed }) ∧
    (¬(st = "CREATE_COMPLETE".toList ∨ st = "DELETE_COMPLETE".toList) →
      ¬("FAILED".toList <:+: st ∨ "ROLLBACK".toList <:+: st) →
      s.updateFromDescribeResponse unmarshal body = .ok s) ∧
    (s.status = .working →
      (st = "CREATE_COMPLETE".toList →
        s.updateFromDescribeResponse unmarshal body = .ok { s with status := .done }) ∧
      (st = "UPDATE_ROLLBACK_FAILED".toList →
        s.updateFromDescribeResponse unmarshal body = .ok { s with status := .failed }) ∧
      (st = "UPDATE_IN_PROGRESS".toList →
        s.updateFromDescribeResponse unmarshal body = .ok { s with status := .working })) := by
  have hdone : (st = "CREATE_COMPLETE".toList ∨ st = "DELETE_COMPLETE".toList) →
      s.updateFromDescribeResponse unmarshal body = .ok { s with status := .done } := by
    intro hst
    simp only [Stack.updateFromDescribeResponse, h, if_pos hst]
  have hfailed : ("FAILED".toList <:+: st ∨ "ROLLBACK".toList <:+: st) →
      s.updateFromDescribeResponse unmarshal body = .ok { s with status := .failed } := by
    intro hst
    have hne : ¬(st = "CREATE_COMPLETE".toList ∨ st = "DELETE_COMPLETE".toList) := by
      rintro (rfl | rfl) <;> revert hst <;> decide
    have hc : (contains st "FAILED".toList || contains st "ROLLBACK".toList) = true := by
      rw [Bool.or_eq_true, contains_iff_infix, contains_iff_infix]; exact hst
    simp only [Stack.updateFromDescribeResponse, h, if_neg hne, if_pos hc]
  have hother : ¬(st = "CREATE_COMPLETE".toList ∨ st = "DELETE_COMPLETE".toList) →
      ¬("FAILED".toList <:+: st ∨ "ROLLBACK".toList <:+: st) →
      s.updateFromDescribeResponse unmarshal body = .ok s := by
    intro hne hst
    have hc : ¬(contains st "FAILED".toList || contains st "ROLLBACK".toList) = true := by
      rw [Bool.or_eq_true, contains_iff_infix, contains_iff_infix]; exact hst
    simp only [Stack.updateFromDescribeResponse, h, if_neg hne, if_neg hc]
  refine ⟨hdone, hfailed, hother, fun hw => ⟨fun h1 => hdone (Or.inl h1), ?_, ?_⟩⟩
  · rintro rfl
    exact hfailed (by decide)
  · rintro rfl
    rw [hother (by decide) (by decide)]
    cases s
    simp only at hw
    subst hw
    rfl

/-- Witness of C4: a working stack and the reply status `UPDATE_ROLLBACK_FAILED`. -/
theorem transition_table_witness :
    (⟨0, "Foo".toList, true, 1, 0, .working⟩ : Stack).updateFromDescribeResponse
        (fun b => some b) "UPDATE_ROLLBACK_FAILED".toList =
      .ok ⟨0, "Foo".toList, true, 1, 0, .failed⟩ :=
  (transition_table (fun b => some b) ⟨0, "Foo".toList, true, 1, 0, .working⟩
    "UPDATE_ROLLBACK_FAILED".toList "UPDATE_ROLLBACK_FAILED".toList rfl).2.1 (by decide)

/-- C7. On a registry in which no stack has the name, `Skip` writes through the
nil pointer returned by `getStack` and panics; there is no not-found outcome. -/
theorem Skip_unknown_name_panics (m : Manager) (name : Str)
    (h : ∀ s ∈ m.stacks_, s.name ≠ name) : m.Skip name = .panic .nilDereference := by
  have hnone : ∀ l : List Stack, (∀ s ∈ l, s.name ≠ name) → firstNamed name l = none := by
    intro l
    induction l with
    | nil => intro _; rfl
    | cons a l ih =>
      intro hl
      have ha : a.name ≠ name := hl a (List.mem_cons_self _ _)
      simp [firstNamed, ha, ih (fun s hs => hl s (List.mem_cons_of_mem _ hs))]
  simp [Manager.Skip, Manager.getStack, hnone m.stacks_ h]

/-- Witness of C7: the skip command `skip Bar` when only `Foo` is registered. -/
theorem Skip_unknown_name_panics_witness :
    Manager.Skip ⟨[⟨0, "Foo".toList, true, 1, 0, .working⟩]⟩ "Bar".toList =
      .panic .nilDereference :=
  Skip_unknown_name_panics ⟨[⟨0, "Foo".toList, true, 1, 0, .working⟩]⟩ "Bar".toList
    (by decide)

/-- No describe reply ever writes the field `end`. -/
theorem update_end (unmarshal : Str → Option Str) (s s' : Stack) (body : Str)
    (h : s.updateFromDescribeResponse unmarshal body = .ok s') : s'.end_ = s.end_ := by
  unfold Stack.updateFromDescribeResponse at h
  split at h
  · cases h
  · split_ifs at h <;> cases h <;> rfl

set_option maxRecDepth 1000000 in
/-- C8. A stack registered at the instant `63900000000` seconds after the zero
time and then completed by a `CREATE_COMPLETE` reply is `done` with its `end`
still the zero time, before its `start`; `statusString` reports the saturated
negative difference as the time taken. -/
theorem end_not_stamped_on_done :
    (⟨0, "Foo".toList, true, 63900000000 * 10 ^ 9, 0, .working⟩ :
        Stack).updateFromDescribeResponse (fun b => some b) "CREATE_COMPLETE".toList =
      .ok ⟨0, "Foo".toList, true, 63900000000 * 10 ^ 9, 0, .done⟩ ∧
    (⟨0, "Foo".toList, true, 63900000000 * 10 ^ 9, 0, .done⟩ : Stack).end_ <
      (⟨0, "Foo".toList, true, 63900000000 * 10 ^ 9, 0, .done⟩ : Stack).start ∧
    Stack.statusString (63900000600 * 10 ^ 9)
        ⟨0, "Foo".toList, true, 63900000000 * 10 ^ 9, 0, .done⟩ =
      "Foo succeeded (took -153722867:-16)".toList := by
  refine ⟨by decide, by decide, by decide⟩

/-- C10. `stackFromPayload` panics with an index out of range exactly when one of
the `&`-separated segments of the payload is exactly `StackName` or exactly
`ChangeSetType`; on every other payload (the empty one too) it returns a
working stack whose name is the value of the last segment with key `StackName`,
the empty string when there is none. -/
theorem stackFromPayload_total (now : Time) (payload : Str) :
    (stackFromPayload now payload = .panic .indexOutOfRange ↔
      ∃ seg ∈ split '&' payload, seg = "StackName".toList ∨ seg = "ChangeSetType".toList) ∧
    ((¬∃ seg ∈ split '&' payload, seg = "StackName".toList ∨ seg = "ChangeSetType".toList) →
      ∃ s, stackFromPayload now payload = .ok s ∧ s.status = .working ∧
        s.name = specName (split '&' payload)) ∧
    stackFromPayload now [] = .ok ⟨0, [], false, now, 0, .working⟩ := by
  have hok : (¬∃ seg ∈ split '&' payload, BareKey seg) →
      stackFromPayload now payload = .ok
        ⟨0, specName (split '&' payload), specCreate (split '&' payload), now, 0, .working⟩ := by
    intro h
    exact stackFromPayload_of_no_bare now payload (fun pair hp hb => h ⟨pair, hp, hb⟩)
  refine ⟨⟨fun h => ?_, fun h => loop_panic _ _ h⟩, fun h => ⟨_, hok h, rfl, rfl⟩, rfl⟩
  by_contra hno
  rw [hok hno] at h
  cases h

/-- C3, as stated, fails: with two `ChangeSetType` pairs the last one decides,
and a value is cut at its second `=`. -/
theorem create_flag_counterexample :
    (stackFromPayload 0 "ChangeSetType=CREATE&ChangeSetType=UPDATE".toList =
        .ok ⟨0, [], false, 0, 0, .working⟩ ∧
      "ChangeSetType=CREATE".toList ∈
        split '&' "ChangeSetType=CREATE&ChangeSetType=UPDATE".toList) ∧
    (stackFromPayload 0 "ChangeSetType=CREATE=x".toList = .ok ⟨0, [], true, 0, 0, .working⟩ ∧
      "ChangeSetType=CREATE".toList ∉ split '&' "ChangeSetType=CREATE=x".toList) := by
  decide

/-- C3, amended. On every payload on which `stackFromPayload` returns, the create
flag is true exactly when the last `&`-separated pair whose key (the text before
its first `=`) is `ChangeSetType` has the value `CREATE` (the text between its
first and second `=`); with no such pair the flag is false. -/
theorem create_flag_last_pair (now : Time) (payload : Str) (s : Stack)
    (h : stackFromPayload now payload = .ok s) :
    (s.create = true ↔
      ∃ pair, lastPair "ChangeSetType".toList (split '&' payload) = some pair ∧
        pairValue pair = "CREATE".toList) ∧
    (lastPair "ChangeSetType".toList (split '&' payload) = none → s.create = false) := by
  have hnb : ∀ pair ∈ split '&' payload, ¬BareKey pair := by
    intro pair hp hb
    unfold stackFromPayload at h
    rw [loop_panic _ _ ⟨pair, hp, hb⟩] at h
    cases h
  rw [stackFromPayload_of_no_bare now payload hnb] at h
  cases h
  simp only [specCreate]
  cases lastPair "ChangeSetType".toList (split '&' payload) <;> simp

/-- Witness of C3, amended: an update request. -/
theorem create_flag_last_pair_witness :
    lastPair "ChangeSetType".toList (split '&' "StackName=Foo&ChangeSetType=UPDATE".toList) =
        some "ChangeSetType=UPDATE".toList ∧
    ((⟨0, "Foo".toList, false, 9, 0, .working⟩ : Stack).create = true ↔
      ∃ pair, lastPair "ChangeSetType".toList
          (split '&' "StackName=Foo&ChangeSetType=UPDATE".toList) = some pair ∧
        pairValue pair = "CREATE".toList) :=
  ⟨by decide,
   (create_flag_last_pair 9 "StackName=Foo&ChangeSetType=UPDATE".toList
      ⟨0, "Foo".toList, false, 9, 0, .working⟩ (by decide)).1⟩

/-- C2, as stated, fails: the name is cut at an `=` inside it, and a later
`StackName` pair overrides the one in front of `ChangeSetType=CREATE`. -/
theorem create_request_counterexample :
    (contains "Action=CreateChangeSet&StackName=a=b&ChangeSetType=CREATE".toList
        "Action=CreateChangeSet&".toList = true ∧
      contains "Action=CreateChangeSet&StackName=a=b&ChangeSetType=CREATE".toList
        "StackName=a=b&ChangeSetType=CREATE".toList = true ∧
      Manager.HandleHTTP (fun b => some b) 5 NewManager
          "Action=CreateChangeSet&StackName=a=b&ChangeSetType=CREATE".toList (.reply 200 []) =
        (⟨[⟨0, "a".toList, true, 5, 0, .working⟩]⟩, .ok ⟨200, []⟩)) ∧
    (contains "Action=CreateChangeSet&StackName=Foo&ChangeSetType=CREATE&StackName=Bar".toList
        "Action=CreateChangeSet&".toList = true ∧
      contains "Action=CreateChangeSet&StackName=Foo&ChangeSetType=CREATE&StackName=Bar".toList
        "StackName=Foo&ChangeSetType=CREATE".toList = true ∧
      Manager.HandleHTTP (fun b => some b) 5 NewManager
          "Action=CreateChangeSet&StackName=Foo&ChangeSetType=CREATE&StackName=Bar".toList
          (.reply 200 []) =
        (⟨[⟨0, "Bar".toList, true, 5, 0, .working⟩]⟩, .ok ⟨200, []⟩)) := by
  decide

/-- C2, amended. Let the payload contain `Action=CreateChangeSet&` and let its
`&`-separated pairs be `front ++ [StackName=Foo, ChangeSetType=CREATE] ++ back`,
where `Foo` has no `=`, no pair of `front` is exactly `StackName` or
`ChangeSetType`, and no pair of `back` has the key `StackName` or
`ChangeSetType`.  Then `stackFromPayload` returns the working stack named `Foo`
with create set, `addStack` appends it with id equal to the size of the registry
before the request, and `HandleHTTP` leaves the registry with exactly that one
new stack (when the round trip fails, and when it succeeds on a payload without
`Action=DescribeStacks&`). -/
theorem create_request_registers (unmarshal : Str → Option Str) (now : Time) (m : Manager)
    (payload : Str) (front back : List Str) (foo : Str)
    (hact : contains payload "Action=CreateChangeSet&".toList = true)
    (hpairs : split '&' payload =
      front ++ ["StackName=".toList ++ foo, "ChangeSetType=CREATE".toList] ++ back)
    (hfoo : '=' ∉ foo)
    (hfront : ∀ p ∈ front, ¬BareKey p)
    (hback : ∀ p ∈ back,
      pairKey p ≠ "StackName".toList ∧ pairKey p ≠ "ChangeSetType".toList) :
    stackFromPayload now payload = .ok ⟨0, foo, true, now, 0, .working⟩ ∧
    (m.addStack payload ⟨0, foo, true, now, 0, .working⟩).stacks_ =
      m.stacks_ ++ [⟨m.stacks_.length, foo, true, now, 0, .working⟩] ∧
    (∀ msg, m.HandleHTTP unmarshal now payload (.transportError msg) =
      (⟨m.stacks_ ++ [⟨m.stacks_.length, foo, true, now, 0, .working⟩]⟩,
        .ok ⟨503, msg ++ "\n".toList⟩)) ∧
    (contains payload "Action=DescribeStacks&".toList = false → ∀ code body,
      m.HandleHTTP unmarshal now payload (.reply code body) =
        (⟨m.stacks_ ++ [⟨m.stacks_.length, foo, true, now, 0, .working⟩]⟩,
          .ok ⟨code, body⟩)) := by
  have hkx : pairKey ("StackName=".toList ++ foo) = "StackName".toList := rfl
  have hvx : pairValue ("StackName=".toList ++ foo) = foo := by
    show foo.takeWhile (· ≠ '=') = foo
    rw [List.takeWhile_eq_self_iff]
    intro c hc
    have : c ≠ '=' := fun hce => hfoo (hce ▸ hc)
    simpa using this
  have hxb : ¬BareKey ("StackName=".toList ++ foo) := by
    intro hb
    have hd : ("StackName=".toList ++ foo).dropWhile (· ≠ '=') = '=' :: foo := rfl
    rcases hb with hb | hb
    · have h0 : ("StackName".toList).dropWhile (· ≠ '=') = [] := by decide
      rw [hb, h0] at hd
      cases hd
    · have h0 : ("ChangeSetType".toList).dropWhile (· ≠ '=') = [] := by decide
      rw [hb, h0] at hd
      cases hd
  have hnb : ∀ pair ∈ split '&' payload, ¬BareKey pair := by
    intro pair hp
    rw [hpairs] at hp
    simp only [List.mem_append, List.mem_cons, List.mem_singleton, List.not_mem_nil,
      or_false] at hp
    rcases hp with (hp | hp | hp) | hp
    · exact hfront pair hp
    · rw [hp]; exact hxb
    · rw [hp]; decide
    · intro hb
      rcases hb with hb | hb
      · exact (hback pair hp).1 (by rw [hb]; decide)
      · exact (hback pair hp).2 (by rw [hb]; decide)
  have hname : specName (split '&' payload) = foo := by
    unfold specName
    rw [hpairs, (lastPair_append_mid _ front back _ _ hkx (by decide)
      (fun p hp => (hback p hp).1)).1]
    exact hvx
  have hcreate : specCreate (split '&' payload) = true := by
    unfold specCreate
    rw [hpairs, (lastPair_append_mid "ChangeSetType".toList front back
      "ChangeSetType=CREATE".toList _ (by decide) (by rw [hkx]; decide)
      (fun p hp => (hback p hp).2)).2]
    decide
  have h1 : stackFromPayload now payload = .ok ⟨0, foo, true, now, 0, .working⟩ := by
    rw [stackFromPayload_of_no_bare now payload hnb, hname, hcreate]
  refine ⟨h1, rfl, ?_, ?_⟩
  · intro msg
    simp only [Manager.HandleHTTP, h1, hact, if_true]
    rfl
  · intro hd code body
    simp only [Manager.HandleHTTP, h1, hact, hd, if_true]
    rfl

/-- Witness of C2, amended: a create request for the stack `Foo` on a registry
that already holds one stack. -/
theorem create_request_registers_witness :
    stackFromPayload 5 "Action=CreateChangeSet&StackName=Foo&ChangeSetType=CREATE&V=1".toList =
        .ok ⟨0, "Foo".toList, true, 5, 0, .working⟩ ∧
    (Manager.addStack ⟨[⟨0, "Old".toList, false, 1, 0, .done⟩]⟩
        "Action=CreateChangeSet&StackName=Foo&ChangeSetType=CREATE&V=1".toList
        ⟨0, "Foo".toList, true, 5, 0, .working⟩).stacks_ =
      [⟨0, "Old".toList, false, 1, 0, .done⟩] ++ [⟨1, "Foo".toList, true, 5, 0, .working⟩] :=
  let h := create_request_registers (fun b => some b) 5
    ⟨[⟨0, "Old".toList, false, 1, 0, .done⟩]⟩
    "Action=CreateChangeSet&StackName=Foo&ChangeSetType=CREATE&V=1".toList
    ["Action=CreateChangeSet".toList] ["V=1".toList] "Foo".toList
    (by decide) (by decide) (by decide) (by decide) (by decide)
  ⟨h.1, h.2.1⟩

/-- C5, as stated, fails: a `done` stack is moved to `failed` by a later reply,
a `failed` stack to `done`, and `Skip` moves a `done` stack to `skipped`. -/
theorem terminal_states_counterexample :
    Manager.HandleHTTP (fun b => some b) 9 ⟨[⟨0, "Foo".toList, true, 1, 0, .done⟩]⟩
        "Action=DescribeStacks&StackName=Foo".toList (.reply 200 "ROLLBACK_IN_PROGRESS".toList) =
      (⟨[⟨0, "Foo".toList, true, 1, 0, .failed⟩]⟩, .ok ⟨200, "ROLLBACK_IN_PROGRESS".toList⟩) ∧
    (⟨0, "Foo".toList, true, 1, 0, .failed⟩ : Stack).updateFromDescribeResponse
        (fun b => some b) "CREATE_COMPLETE".toList =
      .ok ⟨0, "Foo".toList, true, 1, 0, .done⟩ ∧
    Manager.Skip ⟨[⟨0, "Foo".toList, true, 1, 0, .done⟩]⟩ "Foo".toList =
      .ok ⟨[⟨0, "Foo".toList, true, 1, 0, .skipped⟩]⟩ := by
  decide

/-- C5, amended. `skipped` is terminal and entered only through `Skip`: a stack
of the registry whose status is `skipped` is left as it is by every `HandleHTTP`
call (whether the handler returns or panics) and by every `Skip` call that
returns, no describe reply gives `updateFromDescribeResponse` a result with
status `skipped` unless the stack was skipped already, and every skipped stack
in the registry after `HandleHTTP` was there, skipped, before it. -/
theorem skipped_is_terminal (unmarshal : Str → Option Str) (now : Time) (m : Manager)
    (payload : Str) (up : Upstream) (name : Str) (k : Nat) (s : Stack)
    (hk : m.stacks_[k]? = some s) (hs : s.status = .skipped) :
    (m.HandleHTTP unmarshal now payload up).1.stacks_[k]? = some s ∧
    (∀ m', m.Skip name = .ok m' → m'.stacks_[k]? = some s) ∧
    (∀ (t t' : Stack) (body : Str), t.updateFromDescribeResponse unmarshal body = .ok t' →
      t'.status = .skipped → t.status = .skipped) ∧
    (∀ (j : Nat) (t : Stack), (m.HandleHTTP unmarshal now payload up).1.stacks_[j]? = some t →
      t.status = .skipped → m.stacks_[j]? = some t) := by
  obtain ⟨m1, hm1, hcase⟩ := HandleHTTP_cases unmarshal now m payload up
  refine ⟨?_, ?_, fun t t' body h => update_skipped _ _ _ _ h, ?_⟩
  · have h1 : m1.stacks_[k]? = some s := registered_get _ _ _ _ _ _ hm1 hk
    rcases hcase with h2 | ⟨i, st, st', reply, hst, hne, -, h2⟩
    · rw [h2]; exact h1
    · rw [h2]
      have hik : i ≠ k := by
        rintro rfl
        rw [h1] at hst
        cases hst
        exact hne hs
      simp only [List.getElem?_set_ne hik]
      exact h1
  · intro m' hm'
    unfold Manager.Skip at hm'
    split at hm'
    · cases hm'
    · rename_i i _
      cases hm'
      simp only [Manager.setStatus, List.getElem?_modify, hk, Option.map_eq_map, Option.map_some']
      split_ifs
      · cases s
        simp only at hs
        subst hs
        rfl
      · rfl
  · intro j t hj ht
    rcases hcase with h2 | ⟨i, st, st', reply, hst, hne, hupd, h2⟩
    · rw [h2] at hj
      exact registered_get_skipped _ _ _ _ _ _ hm1 hj ht
    · rw [h2] at hj
      simp only [List.getElem?_set] at hj
      split_ifs at hj with hij hlt
      · cases hj
        exact absurd (update_skipped _ _ _ _ hupd ht) hne
      · exact registered_get_skipped _ _ _ _ _ _ hm1 hj ht

/-- Witness of C5, amended: a skipped stack polled with a describe request. -/
theorem skipped_is_terminal_witness :
    (Manager.HandleHTTP (fun b => some b) 9 ⟨[⟨0, "Foo".toList, true, 1, 0, .skipped⟩]⟩
        "Action=DescribeStacks&StackName=Foo".toList
        (.reply 200 "CREATE_FAILED".toList)).1.stacks_[0]? =
      some ⟨0, "Foo".toList, true, 1, 0, .skipped⟩ ∧
    Manager.HandleHTTP (fun b => some b) 9 ⟨[⟨0, "Foo".toList, true, 1, 0, .skipped⟩]⟩
        "Action=DescribeStacks&StackName=Foo".toList (.reply 200 "CREATE_FAILED".toList) =
      (⟨[⟨0, "Foo".toList, true, 1, 0, .skipped⟩]⟩, .ok ⟨200, "CREATE_FAILED".toList⟩) :=
  ⟨(skipped_is_terminal (fun b => some b) 9 ⟨[⟨0, "Foo".toList, true, 1, 0, .skipped⟩]⟩
      "Action=DescribeStacks&StackName=Foo".toList (.reply 200 "CREATE_FAILED".toList)
      "Foo".toList 0 ⟨0, "Foo".toList, true, 1, 0, .skipped⟩ (by decide) (by decide)).1,
   by decide⟩

/-- C6, as stated, fails: with two `StackStatus` elements on one line the greedy
pattern runs from the first opening tag to the last closing tag, so the text
between the elements is dropped; and a status text with a newline in it is not
replaced at all. -/
theorem shortCircuit_counterexample :
    (⟨0, "Foo".toList, true, 1, 0, .skipped⟩ : Stack).shortCircuit
        "<a><StackStatus>X</StackStatus><b/><StackStatus>Y</StackStatus></a>".toList =
      "<a><StackStatus>CREATE_COMPLETE</StackStatus></a>".toList ∧
    (⟨0, "Foo".toList, true, 1, 0, .skipped⟩ : Stack).shortCircuit
        "<a><StackStatus>X\nY</StackStatus></a>".toList =
      "<a><StackStatus>X\nY</StackStatus></a>".toList := by
  decide

/-- C6, amended. Let the reply body be `pre ++ <StackStatus> ++ st ++
</StackStatus> ++ post`, where `pre` does not contain `<StackStatus>`, `st` has
no newline and the rest of the line behind the element (`post` up to its first
newline) does not contain `</StackStatus>`.  Then `shortCircuit` returns `pre`
unchanged, followed by `<StackStatus>CREATE_COMPLETE</StackStatus>` when the
stack is a create and `<StackStatus>UPDATE_COMPLETE</StackStatus>` otherwise,
whatever `st` is, followed by `shortCircuit` of `post`; a body without
`<StackStatus>` is returned unchanged.  For a describe request (not also a
create) whose stack is skipped, `HandleHTTP` returns the rewritten body and
leaves the registry as it was, so the status stays `skipped`. -/
theorem shortCircuit_rewrites (s : Stack) (pre st post : Str)
    (hpre : ¬openTag <:+: pre) (hst : '\n' ∉ st)
    (hpost : ¬closeTag <:+: post.takeWhile (· ≠ '\n')) :
    s.shortCircuit (pre ++ openTag ++ st ++ closeTag ++ post) =
      pre ++ (if s.create then "<StackStatus>CREATE_COMPLETE</StackStatus>".toList
        else "<StackStatus>UPDATE_COMPLETE</StackStatus>".toList) ++ s.shortCircuit post ∧
    (¬openTag <:+: post → s.shortCircuit (pre ++ openTag ++ st ++ closeTag ++ post) =
      pre ++ (if s.create then "<StackStatus>CREATE_COMPLETE</StackStatus>".toList
        else "<StackStatus>UPDATE_COMPLETE</StackStatus>".toList) ++ post) ∧
    (∀ body : Str, ¬openTag <:+: body → s.shortCircuit body = body) ∧
    (∀ (unmarshal : Str → Option Str) (now : Time) (m : Manager) (payload reply : Str)
        (code i : Nat) (s0 sk : Stack),
      contains payload "Action=CreateChangeSet&".toList = false →
      contains payload "Action=DescribeStacks&".toList = true →
      stackFromPayload now payload = .ok s0 →
      m.getStack s0.name = some i → m.stacks_[i]? = some sk → sk.status = .skipped →
      m.HandleHTTP unmarshal now payload (.reply code reply) =
        (m, .ok ⟨code, sk.shortCircuit reply⟩)) := by
  have hplain : ∀ body : Str, ¬openTag <:+: body → s.shortCircuit body = body := by
    intro body hb
    have := replaceAll_front (injected s) body [] hb (Or.inl rfl)
    rw [List.append_nil] at this
    unfold Stack.shortCircuit
    rw [this]
    simp [replaceAll]
  have hmain : s.shortCircuit (pre ++ openTag ++ st ++ closeTag ++ post) =
      pre ++ (if s.create then "<StackStatus>CREATE_COMPLETE</StackStatus>".toList
        else "<StackStatus>UPDATE_COMPLETE</StackStatus>".toList) ++ s.shortCircuit post := by
    unfold Stack.shortCircuit
    simp only [List.append_assoc]
    rw [replaceAll_front (injected s) pre (openTag ++ (st ++ (closeTag ++ post))) hpre
        (Or.inr ⟨"StackStatus>".toList ++ (st ++ (closeTag ++ post)), rfl⟩),
      replaceAll_element _ st post hst hpost]
    rfl
  refine ⟨hmain, fun hp => ?_, hplain, ?_⟩
  · rw [hmain, hplain post hp]
  · intro unmarshal now m payload reply code i s0 sk hc hd hs0 hget hi hsk
    simp only [Manager.HandleHTTP, hs0, hc, hd, hget, hi, hsk, if_true, Bool.false_eq_true,
      if_false]

/-- Witness of C6, amended: a one-element reply for an update. -/
theorem shortCircuit_rewrites_witness :
    (⟨0, "Foo".toList, false, 1, 0, .skipped⟩ : Stack).shortCircuit
        ("<r>".toList ++ openTag ++ "UPDATE_IN_PROGRESS".toList ++ closeTag ++ "</r>\n".toList) =
      "<r>".toList ++ "<StackStatus>UPDATE_COMPLETE</StackStatus>".toList ++ "</r>\n".toList :=
  (shortCircuit_rewrites ⟨0, "Foo".toList, false, 1, 0, .skipped⟩ "<r>".toList
    "UPDATE_IN_PROGRESS".toList "</r>\n".toList (by decide) (by decide) (by decide)).2.1
    (by decide)

set_option maxRecDepth 1000000 in
/-- C9, as stated, fails: for a span of `2 ^ 24` seconds and 999999999
nanoseconds (whole seconds `16777216 = 279620 * 60 + 16`) the `float64` sum in
`Duration.Seconds` rounds up to `16777217`, and `formatDuration` renders
`279620:17`. -/
theorem formatDuration_counterexample :
    ((2 ^ 24 * 10 ^ 9 + 999999999 : Int) / 10 ^ 9 = 16777216 ∧
      (16777216 : Int) / 60 = 279620 ∧ (16777216 : Int) % 60 = 16) ∧
    formatDuration (2 ^ 24 * 10 ^ 9 + 999999999) = "279620:17".toList := by
  refine ⟨by decide, by decide⟩

set_option maxRecDepth 1000000 in
/-- C9, amended. For every elapsed span of `a` nanoseconds with `a` below
`2 ^ 24` seconds, with whole seconds `s = a / 10 ^ 9`, `formatDuration` renders
`s / 60` in decimal, zero-padded to at least two digits, a colon, and `s % 60`
zero-padded to two digits; the seconds part is below 60; and 125 seconds
renders as `02:05`. -/
theorem formatDuration_minutes_seconds (a : Nat) (h : a < 2 ^ 24 * 10 ^ 9) :
    formatDuration (a : Int) =
      zeroPad2 (a / 10 ^ 9 / 60) ++ ':' :: zeroPad2 (a / 10 ^ 9 % 60) ∧
    a / 10 ^ 9 % 60 < 60 ∧
    formatDuration (125 * 10 ^ 9) = "02:05".toList := by
  refine ⟨?_, Nat.mod_lt _ (by norm_num), by decide⟩
  unfold formatDuration
  simp only [seconds_trunc a h]
  rw [show ((60 : Int)) = ((60 : Nat) : Int) from rfl, ← Int.ofNat_tdiv, ← Int.ofNat_tmod,
    fmt02d_natCast, fmt02d_natCast]

set_option maxRecDepth 1000000 in
/-- Witness of C9, amended: 3725 seconds and a half render as `62:05`. -/
theorem formatDuration_minutes_seconds_witness :
    formatDuration ((3725500000000 : Nat) : Int) = "62:05".toList :=
  ((formatDuration_minutes_seconds 3725500000000 (by decide)).1).trans (by decide)

end CfProxy
